import Mathlib

set_option maxHeartbeats 1000000

namespace MpscRing

/-- Modelled from the spec: the per-slot state tag of the Ring Channel.
The C++ headers of this repository (the CMakeLists.txt and include tree
named by the packaging recipe) are not among the available sources, so the
ring protocol below is modelled from the design document. -/
inductive SlotTag
  | EMPTY
  | WRITING
  | READY
  | READING
  deriving DecidableEq

/-- Modelled from the spec: an item is tagged with a producer id and a
per-producer sequence counter, as in the stress scenario of the spec. -/
abbrev Item := Nat × Nat

/-- Modelled from the spec: one buffer cell, holding an optional item value
and a state tag. -/
structure Slot where
  tag : SlotTag
  item : Option Item
  deriving DecidableEq

/-- Pointwise update of a function out of Nat, used for the slot array and
the per-producer maps. -/
def upd {α : Type} (f : Nat → α) (i : Nat) (v : α) : Nat → α :=
  fun j => if j = i then v else f j

/-- Modelled from the spec: the shared state of the Ring Channel: the fixed
capacity, the slot array, the monotonic write and read cursors, the closed
flag, per-producer local state (held ticket with the item to publish, and
the next per-producer sequence number) and the consumer-local reading flag.
The fields log and consumed are ghost history variables recording the items
in ticket order and the items claimed by the consumer, in claim order. -/
structure ChanState where
  cap : Nat
  slots : Nat → Slot
  writeCursor : Nat
  readCursor : Nat
  closed : Bool
  reading : Bool
  hold : Nat → Option (Nat × Item)
  nextSeq : Nat → Nat
  log : List Item
  consumed : List Item

/-- Modelled from the spec: a freshly constructed channel of the given
capacity: all slots EMPTY, both cursors zero, channel open. -/
def initState (cap : Nat) : ChanState where
  cap := cap
  slots := fun _ => ⟨SlotTag.EMPTY, none⟩
  writeCursor := 0
  readCursor := 0
  closed := false
  reading := false
  hold := fun _ => none
  nextSeq := fun _ => 0
  log := []
  consumed := []

/-- Modelled from the spec: the error taxonomy of the channel. -/
inductive ChanError
  | ChannelFull
  | ChannelClosed
  | ChannelEmpty
  | ChannelClosedAndDrained
  | Timeout
  | Cancelled
  deriving DecidableEq

/-- Modelled from the spec: the state after a successful reservation by
producer p: the write cursor advances by one, handing out a ticket equal to
the old cursor value, the slot at ticket mod capacity becomes WRITING, the
producer records the ticket and the item it will publish, and the ghost log
grows by that item. -/
def reserveSucc (s : ChanState) (p : Nat) : ChanState :=
  { s with
    writeCursor := s.writeCursor + 1,
    slots := upd s.slots (s.writeCursor % s.cap) ⟨SlotTag.WRITING, none⟩,
    hold := upd s.hold p (some (s.writeCursor, (p, s.nextSeq p))),
    nextSeq := upd s.nextSeq p (s.nextSeq p + 1),
    log := s.log ++ [(p, s.nextSeq p)] }

/-- Modelled from the spec: fail-fast reserve. The closed flag is checked
first; then room is confirmed against the read cursor before the ticket is
taken; on failure an error is returned and no state change happens. -/
def reserveFF (s : ChanState) (p : Nat) : Except ChanError ChanState :=
  if s.closed = true then Except.error ChanError.ChannelClosed
  else if s.writeCursor - s.readCursor < s.cap then Except.ok (reserveSucc s p)
  else Except.error ChanError.ChannelFull

/-- Modelled from the spec: publish flips the reserved slot to READY with
the item, and the producer releases its ticket. -/
def publishSucc (s : ChanState) (p t : Nat) (it : Item) : ChanState :=
  { s with
    slots := upd s.slots (t % s.cap) ⟨SlotTag.READY, some it⟩,
    hold := upd s.hold p none }

/-- Modelled from the spec: the consumer begins a claim: the READY head
slot becomes READING and the item is appended to the consumed log. -/
def claimReadSucc (s : ChanState) (it : Item) : ChanState :=
  { s with
    slots := upd s.slots (s.readCursor % s.cap) ⟨SlotTag.READING, some it⟩,
    reading := true,
    consumed := s.consumed ++ [it] }

/-- Modelled from the spec: the consumer frees the head slot after reading:
the slot returns to EMPTY and the read cursor advances. -/
def claimFreeSucc (s : ChanState) : ChanState :=
  { s with
    slots := upd s.slots (s.readCursor % s.cap) ⟨SlotTag.EMPTY, none⟩,
    readCursor := s.readCursor + 1,
    reading := false }

/-- Modelled from the spec: close marks the channel as no longer accepting
new items; nothing else changes. -/
def closeCh (s : ChanState) : ChanState :=
  { s with closed := true }

/-- Modelled from the spec: non-blocking claim. After close, once the
cursors meet, the terminal drained condition is reported; otherwise the
head slot is consumed when READY, else ChannelEmpty is returned with no
state change. -/
def tryClaim (s : ChanState) : Except ChanError (Item × ChanState) :=
  if s.closed = true ∧ s.writeCursor = s.readCursor then
    Except.error ChanError.ChannelClosedAndDrained
  else
    match (s.slots (s.readCursor % s.cap)).tag,
        (s.slots (s.readCursor % s.cap)).item with
    | SlotTag.READY, some it => Except.ok (it, claimFreeSucc (claimReadSucc s it))
    | _, _ => Except.error ChanError.ChannelEmpty

/-- Modelled from the spec: the number of reserved-but-not-yet-freed slots,
the difference of the two monotonic cursors; the design document calls this
the number of published-but-unclaimed items. -/
def unclaimed (s : ChanState) : Nat :=
  s.writeCursor - s.readCursor

/-- Modelled from the spec: the unsigned difference of two cursor values,
each truncated to 64 bits, computed mod 2 to the 64. -/
def udiff64 (a b : Nat) : Nat :=
  (a % 2 ^ 64 + 2 ^ 64 - b % 2 ^ 64) % 2 ^ 64

/-- Modelled from the spec: slot indexing by bit mask, intended for
power-of-two capacities. -/
def slotIndexMask (n cursor : Nat) : Nat :=
  cursor &&& (n - 1)

/-- Modelled from the spec: slot indexing by remainder. -/
def slotIndexMod (n cursor : Nat) : Nat :=
  cursor % n

/-- Modelled from the spec: one interleaving step of the channel: a
producer reserves (only when the channel is open, the producer is idle, and
room is confirmed) or publishes its held ticket; the single consumer claims
the READY head slot or frees it after reading; or the channel is closed
(closing an already closed channel is allowed and changes nothing). -/
inductive Step : ChanState → ChanState → Prop
  | reserve (p : Nat) (s : ChanState)
      (hopen : s.closed = false)
      (hidle : s.hold p = none)
      (hroom : s.writeCursor - s.readCursor < s.cap) :
      Step s (reserveSucc s p)
  | publish (p t : Nat) (it : Item) (s : ChanState)
      (hhold : s.hold p = some (t, it)) :
      Step s (publishSucc s p t it)
  | claimRead (it : Item) (s : ChanState)
      (hnr : s.reading = false)
      (hready : (s.slots (s.readCursor % s.cap)).tag = SlotTag.READY)
      (hitem : (s.slots (s.readCursor % s.cap)).item = some it) :
      Step s (claimReadSucc s it)
  | claimFree (s : ChanState)
      (hr : s.reading = true) :
      Step s (claimFreeSucc s)
  | close (s : ChanState) :
      Step s (closeCh s)

/-- Modelled from the spec: the states reachable from a freshly constructed
channel of positive capacity. -/
inductive Reachable : ChanState → Prop
  | init (cap : Nat) (hcap : 1 ≤ cap) : Reachable (initState cap)
  | step {s t : ChanState} (h : Reachable s) (hs : Step s t) : Reachable t

/-- Modelled from the spec: the allowed transitions of one slot tag during
a step: unchanged, or one move along the cycle EMPTY WRITING READY READING
and back to EMPTY. -/
def cycleOk (a b : SlotTag) : Prop :=
  a = b ∨
  (a = SlotTag.EMPTY ∧ b = SlotTag.WRITING) ∨
  (a = SlotTag.WRITING ∧ b = SlotTag.READY) ∨
  (a = SlotTag.READY ∧ b = SlotTag.READING) ∨
  (a = SlotTag.READING ∧ b = SlotTag.EMPTY)

instance (a b : SlotTag) : Decidable (cycleOk a b) := by
  unfold cycleOk
  infer_instance

/-- The inductive invariant of the channel model: cursor bounds, the ghost
log matching the cursors, per-producer ordering of logged items, well
formedness of held tickets, and the slot array agreeing with the window of
outstanding tickets. -/
structure Inv (s : ChanState) : Prop where
  hcap : 1 ≤ s.cap
  hrw : s.readCursor ≤ s.writeCursor
  hbound : s.writeCursor - s.readCursor ≤ s.cap
  hlog : s.log.length = s.writeCursor
  hcons : s.consumed = s.log.take (s.readCursor + (if s.reading then 1 else 0))
  hreadlt : s.reading = true → s.readCursor < s.writeCursor
  hfifo : ∀ (t1 t2 p k1 k2 : Nat), t1 < t2 → s.log[t1]? = some (p, k1) →
    s.log[t2]? = some (p, k2) → k1 < k2
  hcover : ∀ (p k : Nat), (p, k) ∈ s.log ↔ k < s.nextSeq p
  hholdwin : ∀ (p t : Nat) (it : Item), s.hold p = some (t, it) →
    s.readCursor ≤ t ∧ t < s.writeCursor
  hholduniq : ∀ (p q t : Nat) (it1 it2 : Item), s.hold p = some (t, it1) →
    s.hold q = some (t, it2) → p = q
  hholditem : ∀ (p t : Nat) (it : Item), s.hold p = some (t, it) →
    s.log[t]? = some it
  hholdnotread : s.reading = true →
    ∀ (p : Nat) (it : Item), s.hold p ≠ some (s.readCursor, it)
  hslotread : s.reading = true →
    (s.slots (s.readCursor % s.cap)).tag = SlotTag.READING ∧
    (s.slots (s.readCursor % s.cap)).item = s.log[s.readCursor]?
  hslotheld : ∀ (p t : Nat) (it : Item), s.hold p = some (t, it) →
    (s.slots (t % s.cap)).tag = SlotTag.WRITING
  hslotready : ∀ (t : Nat), s.readCursor ≤ t → t < s.writeCursor →
    ¬(s.reading = true ∧ t = s.readCursor) →
    (∀ (p : Nat) (it : Item), s.hold p ≠ some (t, it)) →
    (s.slots (t % s.cap)).tag = SlotTag.READY ∧
    (s.slots (t % s.cap)).item = s.log[t]?
  hempty : ∀ (i : Nat),
    (¬ ∃ t, s.readCursor ≤ t ∧ t < s.writeCursor ∧ t % s.cap = i) →
    (s.slots i).tag = SlotTag.EMPTY ∧ (s.slots i).item = none

/-- Concrete trace on a capacity one channel: producer 0 reserves. -/
def st1 : ChanState := reserveSucc (initState 1) 0

/-- Concrete trace: producer 0 publishes its first item. -/
def st2 : ChanState := publishSucc st1 0 0 (0, 0)

/-- Concrete trace: the consumer claims the first item. -/
def st3 : ChanState := claimReadSucc st2 (0, 0)

/-- Concrete trace: the consumer frees the slot. -/
def st4 : ChanState := claimFreeSucc st3

/-- Concrete trace: producer 0 reserves again. -/
def st5 : ChanState := reserveSucc st4 0

/-- Concrete trace: producer 0 publishes its second item. -/
def st6 : ChanState := publishSucc st5 0 1 (0, 1)

/-- Concrete trace: the consumer claims the second item. -/
def st7 : ChanState := claimReadSucc st6 (0, 1)

/-- Concrete trace: the consumer frees the slot again; the channel is now
drained. -/
def st8 : ChanState := claimFreeSucc st7

/-- Concrete state: a freshly constructed capacity one channel, closed. -/
def closedSt : ChanState := closeCh (initState 1)

end MpscRing

namespace Conanfile

/-- A Conan package requirement: a dependency name and a version range. -/
structure Requirement where
  depName : String
  range : String
  deriving DecidableEq

/-- The conan reference string of a requirement, in the syntax passed to
the requires call of a recipe. -/
def Requirement.ref (r : Requirement) : String :=
  r.depName ++ "/[" ++ r.range ++ "]"

/-- The requirements method of mpsc_ringRecipe in src/conanfile.py: its
body is the single call self.requires with rusty-cpp/[>=0.1.7]. -/
def requirements : List String :=
  ["rusty-cpp/[>=0.1.7]"]

/-- The part of cpp_info that the package_info method of the recipe
touches: library directories, binary directories, and the property map. -/
structure CppInfo where
  libdirs : List String
  bindirs : List String
  props : List (String × String)

/-- The conan set_property call: replaces any previous binding of the key
and records the new value. -/
def setProperty (ps : List (String × String)) (k v : String) :
    List (String × String) :=
  ps.filter (fun kv => kv.fst != k) ++ [(k, v)]

/-- The package_info method of mpsc_ringRecipe in src/conanfile.py: sets
the cmake_target_name property to mpsc-ring and clears libdirs and bindirs,
the header-only convention. -/
def package_info (c : CppInfo) : CppInfo :=
  { c with
    props := setProperty c.props "cmake_target_name" "mpsc-ring",
    libdirs := [],
    bindirs := [] }

/-- The exports_sources attribute of mpsc_ringRecipe in src/conanfile.py. -/
def exports_sources : List String :=
  ["CMakeLists.txt", "include/*"]

/-- The name attribute of mpsc_ringRecipe in src/conanfile.py. -/
def packageName : String := "mpsc-ring"

end Conanfile

namespace MpscRing

theorem upd_eq {α : Type} (f : Nat → α) (i : Nat) (v : α) : upd f i v i = v := by
  simp [upd]

theorem upd_ne {α : Type} (f : Nat → α) {i j : Nat} (v : α) (h : j ≠ i) :
    upd f i v j = f j := by
  simp [upd, h]

theorem win_inj (s : ChanState) (h : Inv s) {t1 t2 : Nat}
    (h1 : s.readCursor ≤ t1) (h2 : t1 < s.writeCursor)
    (h3 : s.readCursor ≤ t2) (h4 : t2 < s.writeCursor)
    (hm : t1 % s.cap = t2 % s.cap) : t1 = t2 := by
  have hb := h.hbound
  have hc := h.hcap
  rcases Nat.le_total t1 t2 with hle | hle
  · have hmm : Nat.ModEq s.cap t1 t2 := hm
    have hdvd : s.cap ∣ t2 - t1 := (Nat.modEq_iff_dvd' hle).mp hmm
    have hz : t2 - t1 = 0 := Nat.eq_zero_of_dvd_of_lt hdvd (by omega)
    omega
  · have hmm : Nat.ModEq s.cap t2 t1 := hm.symm
    have hdvd : s.cap ∣ t1 - t2 := (Nat.modEq_iff_dvd' hle).mp hmm
    have hz : t1 - t2 = 0 := Nat.eq_zero_of_dvd_of_lt hdvd (by omega)
    omega

theorem fresh_no_pre (s : ChanState) (h : Inv s)
    (hroom : s.writeCursor - s.readCursor < s.cap) :
    ¬ ∃ t, s.readCursor ≤ t ∧ t < s.writeCursor ∧
      t % s.cap = s.writeCursor % s.cap := by
  rintro ⟨t, ht1, ht2, ht3⟩
  have hmm : Nat.ModEq s.cap t s.writeCursor := ht3
  have hdvd : s.cap ∣ s.writeCursor - t :=
    (Nat.modEq_iff_dvd' (Nat.le_of_lt ht2)).mp hmm
  have hz := Nat.eq_zero_of_dvd_of_lt hdvd (by omega)
  omega

theorem inv_init (cap : Nat) (hcap : 1 ≤ cap) : Inv (initState cap) := by
  constructor <;> intros <;> simp_all [initState]

theorem inv_closeCh (s : ChanState) (h : Inv s) : Inv (closeCh s) := by
  obtain ⟨hcap, hrw, hbound, hlog, hcons, hreadlt, hfifo, hcover, hholdwin,
    hholduniq, hholditem, hholdnotread, hslotread, hslotheld, hslotready,
    hempty⟩ := h
  exact ⟨hcap, hrw, hbound, hlog, hcons, hreadlt, hfifo, hcover, hholdwin,
    hholduniq, hholditem, hholdnotread, hslotread, hslotheld, hslotready,
    hempty⟩

theorem inv_publishSucc (s : ChanState) (p t0 : Nat) (it0 : Item) (h : Inv s)
    (hh : s.hold p = some (t0, it0)) : Inv (publishSucc s p t0 it0) := by
  obtain ⟨hwin1, hwin2⟩ := h.hholdwin p t0 it0 hh
  refine ⟨h.hcap, h.hrw, h.hbound, h.hlog, h.hcons, h.hreadlt, h.hfifo,
    h.hcover, ?_, ?_, ?_, ?_, ?_, ?_, ?_, ?_⟩
  · intro q t it hq
    simp only [publishSucc] at hq
    by_cases hqp : q = p
    · subst hqp
      simp [upd] at hq
    · simp only [upd, if_neg hqp] at hq
      exact h.hholdwin q t it hq
  · intro q1 q2 t it1 it2 h1 h2
    simp only [publishSucc] at h1 h2
    by_cases ha : q1 = p
    · subst ha
      simp [upd] at h1
    · by_cases hb : q2 = p
      · subst hb
        simp [upd] at h2
      · simp only [upd, if_neg ha] at h1
        simp only [upd, if_neg hb] at h2
        exact h.hholduniq q1 q2 t it1 it2 h1 h2
  · intro q t it hq
    simp only [publishSucc] at hq ⊢
    by_cases hqp : q = p
    · subst hqp
      simp [upd] at hq
    · simp only [upd, if_neg hqp] at hq
      exact h.hholditem q t it hq
  · intro hrd q it hq
    simp only [publishSucc] at hq
    by_cases hqp : q = p
    · subst hqp
      simp [upd] at hq
    · simp only [upd, if_neg hqp] at hq
      exact h.hholdnotread hrd q it hq
  · intro hrd
    obtain ⟨ht, hi⟩ := h.hslotread hrd
    have hrlt := h.hreadlt hrd
    have hne : t0 ≠ s.readCursor := by
      intro he
      exact h.hholdnotread hrd p it0 (by rw [← he]; exact hh)
    have hidx : s.readCursor % s.cap ≠ t0 % s.cap := by
      intro he
      exact hne (win_inj s h hwin1 hwin2 (Nat.le_refl _) hrlt he.symm)
    simp only [publishSucc]
    rw [upd_ne _ _ hidx]
    exact ⟨ht, hi⟩
  · intro q t it hq
    simp only [publishSucc] at hq ⊢
    by_cases hqp : q = p
    · subst hqp
      simp [upd] at hq
    · simp only [upd, if_neg hqp] at hq
      have hqwin := h.hholdwin q t it hq
      have hne : t ≠ t0 := by
        intro he
        subst he
        exact hqp (h.hholduniq q p t it it0 hq hh)
      have hidx : t % s.cap ≠ t0 % s.cap := by
        intro he
        exact hne (win_inj s h hqwin.1 hqwin.2 hwin1 hwin2 he)
      rw [upd_ne _ _ hidx]
      exact h.hslotheld q t it hq
  · intro t hrt htw hnr hnh
    simp only [publishSucc] at hnh ⊢
    by_cases hte : t = t0
    · subst hte
      rw [upd_eq]
      exact ⟨rfl, (h.hholditem p t it0 hh).symm⟩
    · have hidx : t % s.cap ≠ t0 % s.cap := by
        intro he
        exact hte (win_inj s h hrt htw hwin1 hwin2 he)
      rw [upd_ne _ _ hidx]
      refine h.hslotready t hrt htw hnr ?_
      intro q it hq
      by_cases hqp : q = p
      · subst hqp
        rw [hh] at hq
        injection hq with h1
        exact hte (congrArg Prod.fst h1).symm
      · exact hnh q it (by rw [upd_ne _ _ hqp]; exact hq)
  · intro i hni
    simp only [publishSucc] at hni ⊢
    have hit0 : i ≠ t0 % s.cap := by
      intro he
      exact hni ⟨t0, hwin1, hwin2, he.symm⟩
    rw [upd_ne _ _ hit0]
    exact h.hempty i hni

theorem head_ready_facts (s : ChanState) (h : Inv s)
    (hnr : s.reading = false)
    (hready : (s.slots (s.readCursor % s.cap)).tag = SlotTag.READY) :
    s.readCursor < s.writeCursor ∧
    (∀ (q : Nat) (it : Item), s.hold q ≠ some (s.readCursor, it)) ∧
    (s.slots (s.readCursor % s.cap)).item = s.log[s.readCursor]? := by
  have hrlt : s.readCursor < s.writeCursor := by
    by_contra hge
    have hni : ¬ ∃ t, s.readCursor ≤ t ∧ t < s.writeCursor ∧
        t % s.cap = s.readCursor % s.cap := by
      rintro ⟨t, h1, h2, _⟩
      omega
    have he := (h.hempty _ hni).1
    rw [he] at hready
    exact SlotTag.noConfusion hready
  have hnh : ∀ (q : Nat) (it : Item), s.hold q ≠ some (s.readCursor, it) := by
    intro q it hq
    have hw := h.hslotheld q _ _ hq
    rw [hw] at hready
    exact SlotTag.noConfusion hready
  have hit := (h.hslotready s.readCursor (Nat.le_refl _) hrlt
    (by simp [hnr]) hnh).2
  exact ⟨hrlt, hnh, hit⟩

theorem inv_claimReadSucc (s : ChanState) (it0 : Item) (h : Inv s)
    (hnr : s.reading = false)
    (hready : (s.slots (s.readCursor % s.cap)).tag = SlotTag.READY)
    (hitem : (s.slots (s.readCursor % s.cap)).item = some it0) :
    Inv (claimReadSucc s it0) := by
  obtain ⟨hrlt, hnh, hit⟩ := head_ready_facts s h hnr hready
  have hlogit : s.log[s.readCursor]? = some it0 := hit.symm.trans hitem
  refine ⟨h.hcap, h.hrw, h.hbound, h.hlog, ?_, ?_, h.hfifo, h.hcover,
    h.hholdwin, h.hholduniq, h.hholditem, ?_, ?_, ?_, ?_, ?_⟩
  · simp only [claimReadSucc]
    rw [h.hcons, hnr]
    show List.take (s.readCursor + 0) s.log ++ [it0] =
      List.take (s.readCursor + 1) s.log
    rw [Nat.add_zero, List.take_succ, hlogit]
    rfl
  · intro _
    exact hrlt
  · intro _ q it
    exact hnh q it
  · intro _
    simp only [claimReadSucc]
    rw [upd_eq]
    exact ⟨rfl, hlogit.symm⟩
  · intro q t it hq
    have hqwin := h.hholdwin q t it hq
    have hne : t ≠ s.readCursor := by
      intro he
      exact hnh q it (by rw [← he]; exact hq)
    have hidx : t % s.cap ≠ s.readCursor % s.cap := fun he =>
      hne (win_inj s h hqwin.1 hqwin.2 (Nat.le_refl _) hrlt he)
    simp only [claimReadSucc]
    rw [upd_ne _ _ hidx]
    exact h.hslotheld q t it hq
  · intro t h1 h2 hnr2 hnh2
    have hne : t ≠ s.readCursor := by
      intro he
      exact hnr2 ⟨rfl, he⟩
    have hidx : t % s.cap ≠ s.readCursor % s.cap := fun he =>
      hne (win_inj s h h1 h2 (Nat.le_refl _) hrlt he)
    simp only [claimReadSucc]
    rw [upd_ne _ _ hidx]
    exact h.hslotready t h1 h2 (by simp [hnr]) hnh2
  · intro i hni
    have hir : i ≠ s.readCursor % s.cap := by
      intro he
      exact hni ⟨s.readCursor, Nat.le_refl _, hrlt, he.symm⟩
    simp only [claimReadSucc]
    rw [upd_ne _ _ hir]
    exact h.hempty i hni

theorem inv_claimFreeSucc (s : ChanState) (h : Inv s)
    (hrd : s.reading = true) : Inv (claimFreeSucc s) := by
  have hrlt := h.hreadlt hrd
  have hboundb := h.hbound
  have hrwb := h.hrw
  refine ⟨h.hcap, ?_, ?_, h.hlog, ?_, ?_, h.hfifo, h.hcover, ?_,
    h.hholduniq, h.hholditem, ?_, ?_, ?_, ?_, ?_⟩
  · simp only [claimFreeSucc]
    omega
  · simp only [claimFreeSucc]
    omega
  · simp only [claimFreeSucc]
    rw [h.hcons, hrd]
    simp
  · intro hfalse
    simp only [claimFreeSucc] at hfalse
    exact absurd hfalse (by simp)
  · intro q t it hq
    simp only [claimFreeSucc] at hq ⊢
    have hw := h.hholdwin q t it hq
    have hne : t ≠ s.readCursor := by
      intro he
      exact h.hholdnotread hrd q it (by rw [← he]; exact hq)
    omega
  · intro hfalse
    simp only [claimFreeSucc] at hfalse
    exact absurd hfalse (by simp)
  · intro hfalse
    simp only [claimFreeSucc] at hfalse
    exact absurd hfalse (by simp)
  · intro q t it hq
    simp only [claimFreeSucc] at hq ⊢
    have hw := h.hholdwin q t it hq
    have hne : t ≠ s.readCursor := by
      intro he
      exact h.hholdnotread hrd q it (by rw [← he]; exact hq)
    have hidx : t % s.cap ≠ s.readCursor % s.cap := fun he =>
      hne (win_inj s h hw.1 hw.2 (Nat.le_refl _) hrlt he)
    rw [upd_ne _ _ hidx]
    exact h.hslotheld q t it hq
  · intro t h1 h2 hnr2 hnh2
    simp only [claimFreeSucc] at h1 h2 hnh2 ⊢
    have hne : t ≠ s.readCursor := by omega
    have hidx : t % s.cap ≠ s.readCursor % s.cap := fun he =>
      hne (win_inj s h (by omega) h2 (Nat.le_refl _) hrlt he)
    rw [upd_ne _ _ hidx]
    refine h.hslotready t (by omega) h2 ?_ hnh2
    rintro ⟨_, he⟩
    exact hne he
  · intro i hni
    simp only [claimFreeSucc] at hni ⊢
    by_cases hir : i = s.readCursor % s.cap
    · subst hir
      rw [upd_eq]
      exact ⟨rfl, rfl⟩
    · rw [upd_ne _ _ hir]
      refine h.hempty i ?_
      rintro ⟨t, ht1, ht2, ht3⟩
      by_cases hte : t = s.readCursor
      · subst hte
        exact hir ht3.symm
      · exact hni ⟨t, by omega, ht2, ht3⟩

theorem inv_reserveSucc (s : ChanState) (p : Nat) (h : Inv s)
    (hidle : s.hold p = none)
    (hroom : s.writeCursor - s.readCursor < s.cap) :
    Inv (reserveSucc s p) := by
  have hfresh := fresh_no_pre s h hroom
  have hrwb := h.hrw
  refine ⟨h.hcap, ?_, ?_, ?_, ?_, ?_, ?_, ?_, ?_, ?_, ?_, ?_, ?_, ?_, ?_, ?_⟩
  · simp only [reserveSucc]
    omega
  · simp only [reserveSucc]
    omega
  · simp only [reserveSucc, List.length_append, List.length_singleton]
    rw [h.hlog]
  · have hm : s.readCursor + (if s.reading then 1 else 0) ≤ s.log.length := by
      rw [h.hlog]
      by_cases hb : s.reading = true
      · have h1 : (if s.reading then 1 else 0) = 1 := by rw [hb]; rfl
        have := h.hreadlt hb
        omega
      · simp only [Bool.not_eq_true] at hb
        have h1 : (if s.reading then 1 else 0) = 0 := by rw [hb]; rfl
        omega
    simp only [reserveSucc]
    rw [List.take_append_of_le_length hm]
    exact h.hcons
  · intro hb
    simp only [reserveSucc]
    have := h.hreadlt hb
    omega
  · intro t1 t2 q k1 k2 hlt ha hb
    simp only [reserveSucc] at ha hb
    rcases Nat.lt_trichotomy t2 s.log.length with h2 | h2 | h2
    · rw [List.getElem?_append_left (by omega)] at ha
      rw [List.getElem?_append_left h2] at hb
      exact h.hfifo t1 t2 q k1 k2 hlt ha hb
    · subst h2
      rw [List.getElem?_concat_length] at hb
      injection hb with hb2
      rw [List.getElem?_append_left hlt] at ha
      have hmem := List.getElem?_mem ha
      have := (h.hcover q k1).mp hmem
      have hq : q = p := (congrArg Prod.fst hb2).symm
      subst hq
      have hk2 : k2 = s.nextSeq q := (congrArg Prod.snd hb2).symm
      omega
    · rw [List.getElem?_eq_none (by simp; omega)] at hb
      exact Option.noConfusion hb
  · intro q k
    simp only [reserveSucc]
    by_cases hqp : q = p
    · subst hqp
      rw [upd_eq]
      constructor
      · intro hm
        rcases List.mem_append.mp hm with hm | hm
        · have := (h.hcover q k).mp hm
          omega
        · simp only [List.mem_singleton, Prod.mk.injEq] at hm
          omega
      · intro hk
        rcases Nat.lt_or_ge k (s.nextSeq q) with hlt | hge
        · exact List.mem_append.mpr (Or.inl ((h.hcover q k).mpr hlt))
        · have hke : k = s.nextSeq q := by omega
          subst hke
          exact List.mem_append.mpr (Or.inr (by simp))
    · rw [upd_ne _ _ hqp]
      constructor
      · intro hm
        rcases List.mem_append.mp hm with hm | hm
        · exact (h.hcover q k).mp hm
        · simp only [List.mem_singleton, Prod.mk.injEq] at hm
          exact absurd hm.1 hqp
      · intro hk
        exact List.mem_append.mpr (Or.inl ((h.hcover q k).mpr hk))
  · intro q t it hq
    simp only [reserveSucc] at hq ⊢
    by_cases hqp : q = p
    · subst hqp
      rw [upd_eq] at hq
      cases hq
      omega
    · rw [upd_ne _ _ hqp] at hq
      have := h.hholdwin q t it hq
      omega
  · intro q1 q2 t it1 it2 h1 h2
    simp only [reserveSucc] at h1 h2
    by_cases ha : q1 = p
    · by_cases hb : q2 = p
      · rw [ha, hb]
      · subst ha
        rw [upd_eq] at h1
        rw [upd_ne _ _ hb] at h2
        cases h1
        have := (h.hholdwin q2 _ it2 h2).2
        omega
    · by_cases hb : q2 = p
      · subst hb
        rw [upd_eq] at h2
        rw [upd_ne _ _ ha] at h1
        cases h2
        have := (h.hholdwin q1 _ it1 h1).2
        omega
      · rw [upd_ne _ _ ha] at h1
        rw [upd_ne _ _ hb] at h2
        exact h.hholduniq q1 q2 t it1 it2 h1 h2
  · intro q t it hq
    simp only [reserveSucc] at hq ⊢
    by_cases hqp : q = p
    · subst hqp
      rw [upd_eq] at hq
      cases hq
      rw [← h.hlog]
      exact List.getElem?_concat_length _ _
    · rw [upd_ne _ _ hqp] at hq
      have hw := (h.hholdwin q t it hq).2
      rw [List.getElem?_append_left (by rw [h.hlog]; omega)]
      exact h.hholditem q t it hq
  · intro hrd q it hq
    simp only [reserveSucc] at hq
    have hrlt := h.hreadlt hrd
    by_cases hqp : q = p
    · subst hqp
      rw [upd_eq] at hq
      injection hq with hq2
      have : s.writeCursor = s.readCursor := congrArg Prod.fst hq2
      omega
    · rw [upd_ne _ _ hqp] at hq
      exact h.hholdnotread hrd q it hq
  · intro hrd
    simp only [reserveSucc]
    have hrlt := h.hreadlt hrd
    have hidx : s.readCursor % s.cap ≠ s.writeCursor % s.cap := by
      intro he
      exact hfresh ⟨s.readCursor, Nat.le_refl _, hrlt, he⟩
    rw [upd_ne _ _ hidx]
    obtain ⟨h1, h2⟩ := h.hslotread hrd
    refine ⟨h1, ?_⟩
    rw [List.getElem?_append_left (by rw [h.hlog]; omega)]
    exact h2
  · intro q t it hq
    simp only [reserveSucc] at hq ⊢
    by_cases hqp : q = p
    · subst hqp
      rw [upd_eq] at hq
      cases hq
      rw [upd_eq]
    · rw [upd_ne _ _ hqp] at hq
      have hw := h.hholdwin q t it hq
      have hidx : t % s.cap ≠ s.writeCursor % s.cap := by
        intro he
        exact hfresh ⟨t, hw.1, hw.2, he⟩
      rw [upd_ne _ _ hidx]
      exact h.hslotheld q t it hq
  · intro t h1 h2 hnr2 hnh2
    simp only [reserveSucc] at h1 h2 hnr2 hnh2 ⊢
    by_cases hte : t = s.writeCursor
    · exfalso
      subst hte
      exact hnh2 p (p, s.nextSeq p) (upd_eq _ _ _)
    · have h2b : t < s.writeCursor := by omega
      have hidx : t % s.cap ≠ s.writeCursor % s.cap := by
        intro he
        exact hfresh ⟨t, h1, h2b, he⟩
      rw [upd_ne _ _ hidx]
      have hnh3 : ∀ (q : Nat) (it : Item), s.hold q ≠ some (t, it) := by
        intro q it hq
        by_cases hqp : q = p
        · subst hqp
          rw [hidle] at hq
          exact Option.noConfusion hq
        · exact hnh2 q it (by rw [upd_ne _ _ hqp]; exact hq)
      have hsr := h.hslotready t h1 h2b hnr2 hnh3
      refine ⟨hsr.1, ?_⟩
      rw [List.getElem?_append_left (by rw [h.hlog]; omega)]
      exact hsr.2
  · intro i hni
    simp only [reserveSucc] at hni ⊢
    have hiw : i ≠ s.writeCursor % s.cap := by
      intro he
      exact hni ⟨s.writeCursor, h.hrw, by omega, he.symm⟩
    rw [upd_ne _ _ hiw]
    refine h.hempty i ?_
    rintro ⟨t, ht1, ht2, ht3⟩
    exact hni ⟨t, ht1, by omega, ht3⟩

theorem inv_step (s1 s2 : ChanState) (h : Inv s1) (hs : Step s1 s2) :
    Inv s2 := by
  cases hs with
  | reserve p s hopen hidle hroom => exact inv_reserveSucc s1 p h hidle hroom
  | publish p t it s hhold => exact inv_publishSucc s1 p t it h hhold
  | claimRead it s hnr hready hitem =>
      exact inv_claimReadSucc s1 it h hnr hready hitem
  | claimFree s hr => exact inv_claimFreeSucc s1 h hr
  | close s => exact inv_closeCh s1 h

theorem reachable_inv (s : ChanState) (h : Reachable s) : Inv s := by
  induction h with
  | init cap hcap => exact inv_init cap hcap
  | step h hs ih => exact inv_step _ _ ih hs

theorem log_nodup (s : ChanState) (h : Inv s) : s.log.Nodup := by
  rw [List.nodup_iff_getElem?_ne_getElem?]
  intro i j hij hj heq
  rcases hsome : s.log[j]? with _ | it
  · rw [List.getElem?_eq_none_iff] at hsome
    omega
  · have hi : s.log[i]? = some it := by rw [heq, hsome]
    obtain ⟨p, k⟩ := it
    have := h.hfifo i j p k k hij hi hsome
    omega

theorem consumed_sublist_log (s : ChanState) (h : Inv s) :
    s.consumed.Sublist s.log := by
  rw [h.hcons]
  exact List.take_sublist _ _

theorem step_st1 : Step (initState 1) st1 :=
  Step.reserve 0 (initState 1) rfl rfl (by decide)

theorem step_st2 : Step st1 st2 :=
  Step.publish 0 0 (0, 0) st1 rfl

theorem step_st3 : Step st2 st3 :=
  Step.claimRead (0, 0) st2 rfl rfl rfl

theorem step_st4 : Step st3 st4 :=
  Step.claimFree st3 rfl

theorem step_st5 : Step st4 st5 :=
  Step.reserve 0 st4 rfl rfl (by decide)

theorem step_st6 : Step st5 st6 :=
  Step.publish 0 1 (0, 1) st5 rfl

theorem step_st7 : Step st6 st7 :=
  Step.claimRead (0, 1) st6 rfl rfl rfl

theorem step_st8 : Step st7 st8 :=
  Step.claimFree st7 rfl

theorem reach_st1 : Reachable st1 :=
  Reachable.step (Reachable.init 1 (by decide)) step_st1

theorem reach_st8 : Reachable st8 :=
  Reachable.step (Reachable.step (Reachable.step (Reachable.step
    (Reachable.step (Reachable.step (Reachable.step reach_st1
      step_st2) step_st3) step_st4) step_st5) step_st6) step_st7) step_st8

theorem reach_closedSt : Reachable closedSt :=
  Reachable.step (Reachable.init 1 (by decide)) (Step.close (initState 1))

/-- Claim C1: for every execution in which producers publish a finite
sequence of items, the consumer never claims an item twice (the consumed
log is duplicate free in every reachable state), and once the consumer has
drained the channel (cursors equal, no claim in progress) the consumed log
contains exactly the items published by each producer, each exactly once. -/
theorem claims_exactly_published (s : ChanState) (h : Reachable s) :
    s.consumed.Nodup ∧
    (s.writeCursor = s.readCursor → s.reading = false →
      (s.consumed.length = s.writeCursor ∧
        ∀ (p k : Nat), (p, k) ∈ s.consumed ↔ k < s.nextSeq p)) := by
  have hinv := reachable_inv s h
  constructor
  · exact (log_nodup s hinv).sublist (consumed_sublist_log s hinv)
  · intro hwr hnr
    have hcons : s.consumed = s.log := by
      rw [hinv.hcons, hnr]
      show s.log.take (s.readCursor + 0) = s.log
      rw [Nat.add_zero, ← hwr, ← hinv.hlog]
      exact List.take_length s.log
    constructor
    · rw [hcons, hinv.hlog]
    · intro p k
      rw [hcons]
      exact hinv.hcover p k

/-- Witness for C1: the concrete two item trace on a capacity one channel
drains to exactly the two published items, in order, with no duplicate. -/
theorem claims_exactly_published_witness :
    st8.consumed = [(0, 0), (0, 1)] ∧ st8.consumed.Nodup ∧
    st8.consumed.length = st8.writeCursor ∧
    ((0, 0) ∈ st8.consumed ↔ 0 < st8.nextSeq 0) := by
  have h := claims_exactly_published st8 reach_st8
  exact ⟨rfl, h.1, (h.2 rfl rfl).1, (h.2 rfl rfl).2 0 0⟩

/-- Claim C2: in every reachable state the unsigned 64 bit difference of
the cursors never exceeds the capacity, the count of outstanding items
never exceeds the capacity, and when the difference equals the capacity a
fail-fast reserve on the open channel reports ChannelFull. -/
theorem capacity_bound (s : ChanState) (h : Reachable s)
    (h64 : s.cap < 2 ^ 64) :
    udiff64 s.writeCursor s.readCursor ≤ s.cap ∧
    unclaimed s ≤ s.cap ∧
    (udiff64 s.writeCursor s.readCursor = s.cap → s.closed = false →
      ∀ (p : Nat), reserveFF s p = Except.error ChanError.ChannelFull) := by
  have hinv := reachable_inv s h
  have hM : (2 : Nat) ^ 64 = 18446744073709551616 := by norm_num
  have hud : udiff64 s.writeCursor s.readCursor =
      s.writeCursor - s.readCursor := by
    have hrw := hinv.hrw
    have hb := hinv.hbound
    rw [hM] at h64
    unfold udiff64
    rw [hM]
    omega
  refine ⟨by rw [hud]; exact hinv.hbound, hinv.hbound, ?_⟩
  intro hfull hopen p
  rw [hud] at hfull
  have h1 : ¬ (s.closed = true) := by rw [hopen]; exact Bool.false_ne_true
  have h2 : ¬ (s.writeCursor - s.readCursor < s.cap) := by omega
  unfold reserveFF
  rw [if_neg h1, if_neg h2]

/-- Witness for C2: after one reservation on a capacity one channel the
cursor difference is bounded by the capacity, and reserve fails fast with
ChannelFull because the difference equals the capacity. -/
theorem capacity_bound_witness :
    udiff64 st1.writeCursor st1.readCursor ≤ st1.cap ∧
    reserveFF st1 1 = Except.error ChanError.ChannelFull := by
  have h := capacity_bound st1 reach_st1 (by show (1 : Nat) < 2 ^ 64; norm_num)
  refine ⟨h.1, h.2.2 ?_ rfl 1⟩
  show udiff64 1 0 = 1
  decide

/-- Claim C5: during every step from a reachable state, every slot tag
either stays put or moves one step along the cycle EMPTY WRITING READY
READING and back to EMPTY; in particular a slot is recycled to EMPTY only
from READING, after the consumer has fully read the item. -/
theorem slot_tag_cycle (s1 s2 : ChanState) (h : Reachable s1)
    (hs : Step s1 s2) (i : Nat) :
    cycleOk ((s1.slots i).tag) ((s2.slots i).tag) := by
  have hinv := reachable_inv s1 h
  unfold cycleOk
  cases hs with
  | reserve p s hopen hidle hroom =>
      simp only [reserveSucc]
      by_cases hi : i = s1.writeCursor % s1.cap
      · subst hi
        rw [upd_eq]
        have hfresh := fresh_no_pre s1 hinv hroom
        have he := (hinv.hempty _ hfresh).1
        rw [he]
        exact Or.inr (Or.inl ⟨rfl, rfl⟩)
      · rw [upd_ne _ _ hi]
        exact Or.inl rfl
  | publish p t it s hhold =>
      simp only [publishSucc]
      by_cases hi : i = t % s1.cap
      · subst hi
        rw [upd_eq]
        have hw := hinv.hslotheld p t it hhold
        rw [hw]
        exact Or.inr (Or.inr (Or.inl ⟨rfl, rfl⟩))
      · rw [upd_ne _ _ hi]
        exact Or.inl rfl
  | claimRead it s hnr hready hitem =>
      simp only [claimReadSucc]
      by_cases hi : i = s1.readCursor % s1.cap
      · subst hi
        rw [upd_eq, hready]
        exact Or.inr (Or.inr (Or.inr (Or.inl ⟨rfl, rfl⟩)))
      · rw [upd_ne _ _ hi]
        exact Or.inl rfl
  | claimFree s hr =>
      simp only [claimFreeSucc]
      by_cases hi : i = s1.readCursor % s1.cap
      · subst hi
        rw [upd_eq, (hinv.hslotread hr).1]
        exact Or.inr (Or.inr (Or.inr (Or.inr ⟨rfl, rfl⟩)))
      · rw [upd_ne _ _ hi]
        exact Or.inl rfl
  | close s =>
      exact Or.inl rfl

/-- Witness for C5: the first reservation on a fresh capacity one channel
moves slot zero from EMPTY to WRITING, an allowed cycle move. -/
theorem slot_tag_cycle_witness :
    cycleOk (((initState 1).slots 0).tag) ((st1.slots 0).tag) :=
  slot_tag_cycle (initState 1) st1 (Reachable.init 1 (by decide)) step_st1 0

/-- Claim C6: items of one producer are claimed in the order published:
whenever two consumed entries carry the same producer id, the earlier
position carries the smaller per-producer sequence number. -/
theorem fifo_per_producer (s : ChanState) (h : Reachable s)
    (p k1 k2 i j : Nat) (hij : i < j)
    (hi : s.consumed[i]? = some (p, k1))
    (hj : s.consumed[j]? = some (p, k2)) : k1 < k2 := by
  have hinv := reachable_inv s h
  have hjlen : j < s.consumed.length := by
    by_contra hge
    rw [List.getElem?_eq_none (by omega)] at hj
    exact Option.noConfusion hj
  have hm := hinv.hcons
  rw [hm] at hi hj
  have hjn : j < s.readCursor + (if s.reading then 1 else 0) := by
    rw [hm] at hjlen
    have hlt := List.length_take
      (s.readCursor + (if s.reading then 1 else 0)) s.log
    omega
  rw [List.getElem?_take_of_lt (by omega)] at hi
  rw [List.getElem?_take_of_lt hjn] at hj
  exact hinv.hfifo i j p k1 k2 hij hi hj

/-- Witness for C6: in the concrete two item trace, the two items of
producer zero are consumed with strictly increasing sequence numbers. -/
theorem fifo_per_producer_witness :
    st8.consumed[0]? = some (0, 0) ∧ st8.consumed[1]? = some (0, 1) ∧
    (0 : Nat) < 1 := by
  refine ⟨rfl, rfl, ?_⟩
  exact fifo_per_producer st8 reach_st8 0 0 1 0 1 (by decide) rfl rfl

/-- Counterexample to C3 as stated: in the reachable state st1 (one
producer has reserved a ticket on an open capacity one channel but has not
yet published), the non-blocking claim reports ChannelEmpty although the
number of published-but-unclaimed items, read as the cursor difference the
way C2 defines it, is one, not zero; moreover in the reachable closed full
state the fail-fast reserve reports ChannelClosed, not ChannelFull, though
exactly capacity items are unclaimed. -/
theorem tryClaim_empty_with_unclaimed_item :
    (Reachable st1 ∧ st1.closed = false ∧
      tryClaim st1 = Except.error ChanError.ChannelEmpty ∧
      unclaimed st1 = 1) ∧
    (Reachable (closeCh st1) ∧ unclaimed (closeCh st1) = (closeCh st1).cap ∧
      reserveFF (closeCh st1) 0 = Except.error ChanError.ChannelClosed) :=
  ⟨⟨reach_st1, rfl, rfl, rfl⟩,
    ⟨Reachable.step reach_st1 (Step.close st1), rfl, rfl⟩⟩

/-- Claim C3 (amended): on an open channel, fail-fast reserve returns
ChannelFull exactly when the cursor difference equals the capacity; and
provided no producer is mid write and no claim is in progress, the non
blocking claim returns ChannelEmpty exactly when the cursor difference is
zero. The producer-quiescence proviso is forced by the counterexample: a
reserved-but-unpublished head slot makes the claim report ChannelEmpty
while the cursor difference is positive. -/
theorem full_empty_correct (s : ChanState) (h : Reachable s)
    (hopen : s.closed = false) :
    (∀ (p : Nat), (reserveFF s p = Except.error ChanError.ChannelFull ↔
      unclaimed s = s.cap)) ∧
    ((∀ (q : Nat), s.hold q = none) → s.reading = false →
      (tryClaim s = Except.error ChanError.ChannelEmpty ↔
        unclaimed s = 0)) := by
  have hinv := reachable_inv s h
  have hnc : ¬ (s.closed = true) := by rw [hopen]; exact Bool.false_ne_true
  constructor
  · intro p
    constructor
    · intro he
      unfold reserveFF at he
      rw [if_neg hnc] at he
      by_cases hr : s.writeCursor - s.readCursor < s.cap
      · rw [if_pos hr] at he
        exact Except.noConfusion he
      · have := hinv.hbound
        unfold unclaimed
        omega
    · intro he
      unfold unclaimed at he
      unfold reserveFF
      rw [if_neg hnc, if_neg (by omega)]
  · intro hq hnr
    constructor
    · intro he
      unfold unclaimed
      by_contra hne
      have hrlt : s.readCursor < s.writeCursor := by
        have := hinv.hrw
        omega
      have hs := hinv.hslotready s.readCursor (Nat.le_refl _) hrlt
        (by simp [hnr])
        (by intro q it hqq; rw [hq q] at hqq; exact Option.noConfusion hqq)
      obtain ⟨it, hit⟩ : ∃ it, s.log[s.readCursor]? = some it := by
        rcases hx : s.log[s.readCursor]? with _ | it
        · rw [List.getElem?_eq_none_iff, hinv.hlog] at hx
          omega
        · exact ⟨it, rfl⟩
      have hitem : (s.slots (s.readCursor % s.cap)).item = some it := by
        rw [hs.2]
        exact hit
      unfold tryClaim at he
      rw [if_neg (fun hcon => hnc hcon.1)] at he
      rw [hs.1, hitem] at he
      exact Except.noConfusion he
    · intro he
      unfold unclaimed at he
      have hwr : s.writeCursor = s.readCursor := by
        have := hinv.hrw
        omega
      have hni : ¬ ∃ t, s.readCursor ≤ t ∧ t < s.writeCursor ∧
          t % s.cap = s.readCursor % s.cap := by
        rintro ⟨t, h1, h2, _⟩
        omega
      have hemp := hinv.hempty _ hni
      unfold tryClaim
      rw [if_neg (fun hcon => hnc hcon.1), hemp.1, hemp.2]

/-- Witness for C3 (amended): a fresh capacity one channel is open,
quiescent, reserve does not report full, and claim reports empty with
cursor difference zero. -/
theorem full_empty_correct_witness :
    (reserveFF (initState 1) 0 = Except.error ChanError.ChannelFull ↔
      unclaimed (initState 1) = (initState 1).cap) ∧
    (tryClaim (initState 1) = Except.error ChanError.ChannelEmpty ↔
      unclaimed (initState 1) = 0) := by
  have h := full_empty_correct (initState 1) (Reachable.init 1 (by decide)) rfl
  exact ⟨h.1 0, h.2 (fun q => rfl) rfl⟩

/-- Claim C4: close is idempotent and touches nothing but the closed flag,
so items already published stay claimable exactly as before; once closed,
the flag stays set along every sequence of steps and every fail-fast
reserve reports ChannelClosed; a READY head slot is still claimed
successfully; and once the channel is both closed and drained the claim
reports the terminal ChannelClosedAndDrained instead of blocking. -/
theorem close_semantics (s : ChanState) (h : Reachable s) :
    closeCh (closeCh s) = closeCh s ∧
    (closeCh s).writeCursor = s.writeCursor ∧
    (closeCh s).readCursor = s.readCursor ∧
    (closeCh s).slots = s.slots ∧
    (closeCh s).log = s.log ∧
    (s.closed = true →
      ∀ (s2 : ChanState), Relation.ReflTransGen Step s s2 →
        s2.closed = true ∧
        ∀ (p : Nat), reserveFF s2 p = Except.error ChanError.ChannelClosed) ∧
    (∀ (it : Item), (s.slots (s.readCursor % s.cap)).tag = SlotTag.READY →
      (s.slots (s.readCursor % s.cap)).item = some it →
      tryClaim s = Except.ok (it, claimFreeSucc (claimReadSucc s it))) ∧
    (s.closed = true → unclaimed s = 0 →
      tryClaim s = Except.error ChanError.ChannelClosedAndDrained) := by
  have hinv := reachable_inv s h
  refine ⟨rfl, rfl, rfl, rfl, rfl, ?_, ?_, ?_⟩
  · intro hc s2 hrt
    induction hrt with
    | refl =>
        exact ⟨hc, fun p => by unfold reserveFF; rw [if_pos hc]⟩
    | tail hab hbc ih =>
        obtain ⟨ihc, _⟩ := ih
        cases hbc with
        | reserve p s3 hopen hidle hroom =>
            rw [ihc] at hopen
            exact Bool.noConfusion hopen
        | publish p t it s3 hhold =>
            exact ⟨ihc, fun p2 => by
              unfold reserveFF
              simp only [publishSucc]
              rw [if_pos ihc]⟩
        | claimRead it s3 hnr hready hitem =>
            exact ⟨ihc, fun p2 => by
              unfold reserveFF
              simp only [claimReadSucc]
              rw [if_pos ihc]⟩
        | claimFree s3 hr =>
            exact ⟨ihc, fun p2 => by
              unfold reserveFF
              simp only [claimFreeSucc]
              rw [if_pos ihc]⟩
        | close s3 =>
            exact ⟨rfl, fun p2 => by
              unfold reserveFF
              simp only [closeCh]
              exact if_pos trivial⟩
  · intro it hready hitem
    have hne : ¬ (s.closed = true ∧ s.writeCursor = s.readCursor) := by
      rintro ⟨_, hwr⟩
      have hni : ¬ ∃ t, s.readCursor ≤ t ∧ t < s.writeCursor ∧
          t % s.cap = s.readCursor % s.cap := by
        rintro ⟨t, h1, h2, _⟩
        omega
      have he := (hinv.hempty _ hni).1
      rw [he] at hready
      exact SlotTag.noConfusion hready
    unfold tryClaim
    rw [if_neg hne, hready, hitem]
  · intro hc hu
    unfold unclaimed at hu
    have hwr : s.writeCursor = s.readCursor := by
      have := hinv.hrw
      omega
    unfold tryClaim
    rw [if_pos ⟨hc, hwr⟩]

/-- Witness for C4: on the freshly closed capacity one channel, reserve
reports ChannelClosed and claim reports ChannelClosedAndDrained. -/
theorem close_semantics_witness :
    reserveFF closedSt 0 = Except.error ChanError.ChannelClosed ∧
    tryClaim closedSt = Except.error ChanError.ChannelClosedAndDrained := by
  have h := close_semantics closedSt reach_closedSt
  exact ⟨(h.2.2.2.2.2.1 rfl closedSt Relation.ReflTransGen.refl).2 0,
    h.2.2.2.2.2.2.2 rfl rfl⟩

/-- Claim C7: a fail-fast reserve that reports ChannelFull happens only on
an open channel whose cursor difference equals the capacity, and by its
type it returns no successor state, so no ticket is taken and no slot is
left in WRITING; moreover in every reachable state every WRITING slot is
owned by a producer holding a live ticket for it, whose publish step is
enabled, so no slot is ever granted to a producer that cannot fill it. -/
theorem ticket_only_when_room (s : ChanState) (h : Reachable s) :
    (∀ (p : Nat), reserveFF s p = Except.error ChanError.ChannelFull →
      s.closed = false ∧ unclaimed s = s.cap) ∧
    (∀ (i : Nat), i < s.cap → (s.slots i).tag = SlotTag.WRITING →
      ∃ (q t : Nat) (it : Item), s.hold q = some (t, it) ∧ t % s.cap = i ∧
        Step s (publishSucc s q t it)) := by
  have hinv := reachable_inv s h
  constructor
  · intro p he
    unfold reserveFF at he
    by_cases hc : s.closed = true
    · rw [if_pos hc] at he
      injection he with he2
      exact ChanError.noConfusion he2
    · rw [if_neg hc] at he
      simp only [Bool.not_eq_true] at hc
      by_cases hr : s.writeCursor - s.readCursor < s.cap
      · rw [if_pos hr] at he
        exact Except.noConfusion he
      · refine ⟨hc, ?_⟩
        have := hinv.hbound
        unfold unclaimed
        omega
  · intro i hi hwr
    by_cases hex : ∃ t, s.readCursor ≤ t ∧ t < s.writeCursor ∧ t % s.cap = i
    · obtain ⟨t, h1, h2, h3⟩ := hex
      by_cases hrd : s.reading = true ∧ t = s.readCursor
      · obtain ⟨hrd1, hrd2⟩ := hrd
        have htg := (hinv.hslotread hrd1).1
        rw [← hrd2, h3] at htg
        rw [htg] at hwr
        exact SlotTag.noConfusion hwr
      · by_cases hheld : ∃ (q : Nat) (it : Item), s.hold q = some (t, it)
        · obtain ⟨q, it, hq⟩ := hheld
          exact ⟨q, t, it, hq, h3, Step.publish q t it s hq⟩
        · have hnh : ∀ (q : Nat) (it : Item), s.hold q ≠ some (t, it) := by
            intro q it hq
            exact hheld ⟨q, it, hq⟩
          have htg := (hinv.hslotready t h1 h2 hrd hnh).1
          rw [h3] at htg
          rw [htg] at hwr
          exact SlotTag.noConfusion hwr
    · have htg := (hinv.hempty i hex).1
      rw [htg] at hwr
      exact SlotTag.noConfusion hwr

/-- Witness for C7: in the reachable state st1 the ring is full, reserve
reports ChannelFull on the open channel, and the single WRITING slot is
owned by producer zero whose publish step is enabled. -/
theorem ticket_only_when_room_witness :
    st1.closed = false ∧ unclaimed st1 = st1.cap ∧
    (st1.slots 0).tag = SlotTag.WRITING ∧
    (∃ (q t : Nat) (it : Item), st1.hold q = some (t, it) ∧
      t % st1.cap = 0 ∧ Step st1 (publishSucc st1 q t it)) := by
  have h := ticket_only_when_room st1 reach_st1
  have h1 := h.1 0 rfl
  exact ⟨h1.1, h1.2, rfl, h.2 0 (by decide) rfl⟩

/-- Claim C8: for a power-of-two capacity, indexing a cursor by bit mask
and by remainder address the same slot. -/
theorem mask_index_eq_mod_index (n cursor : Nat) (hpow : ∃ k, n = 2 ^ k) :
    slotIndexMask n cursor = slotIndexMod n cursor := by
  obtain ⟨k, hk⟩ := hpow
  subst hk
  unfold slotIndexMask slotIndexMod
  exact Nat.and_pow_two_sub_one_eq_mod cursor k

/-- Witness for C8: the recommended capacity 1024 masks a concrete cursor
to the same slot as the remainder does. -/
theorem mask_index_eq_mod_index_witness :
    slotIndexMask 1024 123456789 = slotIndexMod 1024 123456789 :=
  mask_index_eq_mod_index 1024 123456789 ⟨10, by norm_num⟩

end MpscRing

namespace Conanfile

/-- Claim C9: the requirements method of the recipe declares exactly one
package dependency, the ownership-discipline library rusty-cpp at version
range at least 0.1.7, and nothing else. -/
theorem requirements_exactly_rusty_cpp :
    requirements = [Requirement.ref ⟨"rusty-cpp", ">=0.1.7"⟩] ∧
    requirements.length = 1 := by
  constructor
  · rfl
  · rfl

/-- Claim C10: package_info always clears libdirs and bindirs (the
header-only convention, declaring no compiled library or binary artifact),
sets the cmake_target_name property to mpsc-ring and nothing else under
that key, and the recipe exports only CMakeLists.txt and the include
tree. -/
theorem package_info_header_only (c : CppInfo) :
    (package_info c).libdirs = [] ∧
    (package_info c).bindirs = [] ∧
    (("cmake_target_name", "mpsc-ring") ∈ (package_info c).props ∧
      ∀ (v : String), ("cmake_target_name", v) ∈ (package_info c).props →
        v = "mpsc-ring") ∧
    exports_sources = ["CMakeLists.txt", "include/*"] := by
  refine ⟨rfl, rfl, ⟨?_, ?_⟩, rfl⟩
  · unfold package_info setProperty
    simp
  · intro v hv
    unfold package_info setProperty at hv
    rcases List.mem_append.mp hv with hv | hv
    · have hfalse := (List.mem_filter.mp hv).2
      simp at hfalse
    · simp only [List.mem_singleton, Prod.mk.injEq] at hv
      exact hv.2

/-- Witness for C10: package_info applied to an initially empty cpp_info
record yields empty libdirs and bindirs and the mpsc-ring target name. -/
theorem package_info_header_only_witness :
    (package_info ⟨[], [], []⟩).libdirs = [] ∧
    (package_info ⟨[], [], []⟩).bindirs = [] ∧
    (("cmake_target_name", "mpsc-ring") ∈ (package_info ⟨[], [], []⟩).props ∧
      ∀ (v : String),
        ("cmake_target_name", v) ∈ (package_info ⟨[], [], []⟩).props →
          v = "mpsc-ring") ∧
    exports_sources = ["CMakeLists.txt", "include/*"] :=
  package_info_header_only ⟨[], [], []⟩

end Conanfile
